import Mathlib

/-!
Verification of the tiered cache coordinator (`cache.go`, package `cache`).

The coordinator (`HybridCache`) orchestrates two external collaborators:
a local bounded in-process store (ristretto) and a remote shared store
(redis).  We embed the coordinator's own code as pure Lean functions.

Modelling choices:
* Byte values are `List Nat` (each entry a byte).
* `time.Duration` TTLs are `Int` (int64 nanoseconds; overflow irrelevant
  to the claims).
* The local collaborator is not part of this repository; it is modelled
  from the spec's required capability surface (a key/value map where
  `put` followed by the blocking flush is visible to subsequent reads).
  Its state is an explicit association list `LocalState` passed through
  the coordinator's methods in place of the Go field `hc.InMemoryCache`.
* The remote collaborator is likewise external; it is modelled as a
  read-only response oracle `RedisState` (get responses, scan responses
  indexed by call number, pipeline-exec outcomes) in place of the Go
  field `hc.Redis`.
* Every coordinator method additionally returns the trace of commands it
  issues to the two collaborators (`Cmd`), so that claims about *which*
  commands are issued (tier ordering, pipelining, no-ops, costs, TTLs)
  are directly statable.
* Go's `(value []byte, found bool)` results are modelled as
  `Option (List Nat)`: `some v` is `(v, true)`, `none` is `(nil, false)`.
-/

namespace Cache

/-- A command issued by the coordinator to one of the two collaborators.
`localSet` records the exact arguments of ristretto `SetWithTTL`
(key, value, cost, ttl); `redisScan` records the arguments of redis
`Scan` (cursor, pattern, page size). -/
inductive Cmd where
  | localSet (key : String) (value : List Nat) (cost : Nat) (ttl : Int)
  | localWait
  | localGet (key : String)
  | localDel (key : String)
  | localClose
  | redisSet (key : String) (value : List Nat) (ttl : Int)
  | redisGet (key : String)
  | redisDel (key : String)
  | redisPipelineDel (keys : List String)
  | redisScan (cursor : Nat) (pat : String) (count : Nat)
  deriving DecidableEq, Repr

/-- Response of the remote store to a single `Get` command: the key is
present with a value, absent (redis.Nil), or the command fails (network
or server error).  In Go both of the latter arrive as a non-nil `err`. -/
inductive RedisGetResult where
  | found (value : List Nat)
  | nilErr
  | failure (e : String)
  deriving DecidableEq, Repr

/-- Response of the remote store to a single `Scan` command: a page of
keys together with the next cursor, or a command failure. -/
inductive ScanResp where
  | ok (keys : List String) (next : Nat)
  | fail (e : String)
  deriving DecidableEq, Repr

/-- Modelled from the spec: the Remote Shared Store collaborator
(`hc.Redis`, the go-redis client, not part of this repository), as a
response oracle.  `getResp` answers `Get key`; `scanResp i` answers the
`i`-th `Scan` call of an enumeration run; `pipeResp keys` is the outcome
of executing a pipelined batch of `Del` commands (`none` = success,
`some e` = the error returned by `Exec`). -/
structure RedisState where
  getResp : String → RedisGetResult
  scanResp : Nat → ScanResp
  pipeResp : List String → Option String

/-- Modelled from the spec: the Local Bounded Store collaborator
(`hc.InMemoryCache`, ristretto, not part of this repository).  Per the
spec's capability surface, after `put` plus the blocking flush the entry
is visible to subsequent reads, so the store is a key/value association
list.  TTL, cost and eviction are not interpreted here; the cost and TTL
arguments the coordinator passes are recorded in the command trace. -/
structure LocalState where
  entries : List (String × List Nat)

/-- Insert or overwrite a key in the local store. -/
def LocalState.setEntry (ls : LocalState) (key : String) (value : List Nat) :
    LocalState :=
  ⟨(key, value) :: ls.entries.filter (fun p => p.1 ≠ key)⟩

/-- Look a key up in the local store. -/
def LocalState.getEntry (ls : LocalState) (key : String) :
    Option (List Nat) :=
  (ls.entries.find? (fun p => p.1 == key)).map Prod.snd

/-- Remove a key from the local store. -/
def LocalState.delEntry (ls : LocalState) (key : String) : LocalState :=
  ⟨ls.entries.filter (fun p => p.1 ≠ key)⟩

/-- The coordinator's configuration (file `cache.go`, struct
`HybridCache`).  The two collaborator handles (`InMemoryCache`, `Redis`)
are modelled as the explicit `LocalState` / `RedisState` arguments of
the methods below. -/
structure HybridCache where
  Prefix : String
  ExpiresInMemory : Int
  ExpiresRedis : Int

/-- `cache.go` lines 69-72, `SetInMemoryCache`: ristretto
`SetWithTTL(key, value, 1, hc.ExpiresInMemory)` (cost literal 1)
followed by `Wait()`. -/
def SetInMemoryCache (hc : HybridCache) (ls : LocalState) (key : String)
    (value : List Nat) : LocalState × List Cmd :=
  (ls.setEntry key value,
   [Cmd.localSet key value 1 hc.ExpiresInMemory, Cmd.localWait])

/-- `cache.go` lines 75-77, `SetInRedis`: issues `Redis.Set` with the
given expiration; the command's result is discarded. -/
def SetInRedis (key : String) (value : List Nat) (expiration : Int) :
    List Cmd :=
  [Cmd.redisSet key value expiration]

/-- `cache.go` lines 57-60, `Set`: local write first, then remote write
with the remote default TTL `hc.ExpiresRedis`. -/
def Set (hc : HybridCache) (ls : LocalState) (key : String)
    (value : List Nat) : LocalState × List Cmd :=
  let r := SetInMemoryCache hc ls key value
  (r.1, r.2 ++ SetInRedis key value hc.ExpiresRedis)

/-- `cache.go` lines 63-66, `SetWithTTL`: local write first (always with
the local default TTL), then remote write with the explicit TTL. -/
def SetWithTTL (hc : HybridCache) (ls : LocalState) (key : String)
    (value : List Nat) (expiration : Int) : LocalState × List Cmd :=
  let r := SetInMemoryCache hc ls key value
  (r.1, r.2 ++ SetInRedis key value expiration)

/-- `cache.go` lines 92-98, `GetFromInMemoryCache`: local lookup,
`(nil, false)` on miss. -/
def GetFromInMemoryCache (ls : LocalState) (key : String) :
    Option (List Nat) :=
  ls.getEntry key

/-- `cache.go` lines 101-107, `GetFromRedis`: issues `Redis.Get`; ANY
non-nil error — absence (redis.Nil) or command failure alike — yields
`(nil, false)`.  The return type has no error channel. -/
def GetFromRedis (rs : RedisState) (key : String) : Option (List Nat) :=
  match rs.getResp key with
  | RedisGetResult.found v => some v
  | RedisGetResult.nilErr => none
  | RedisGetResult.failure _ => none

/-- `cache.go` lines 80-89, `Get`: local tier first; on local miss the
remote tier; on remote hit the value is promoted into the local tier via
`SetInMemoryCache` before being returned.  Returns the result, the new
local state, and the command trace. -/
def Get (hc : HybridCache) (ls : LocalState) (rs : RedisState)
    (key : String) : Option (List Nat) × LocalState × List Cmd :=
  match GetFromInMemoryCache ls key with
  | some v => (some v, ls, [Cmd.localGet key])
  | none =>
    match GetFromRedis rs key with
    | some v =>
      let r := SetInMemoryCache hc ls key v
      (some v, r.1, [Cmd.localGet key, Cmd.redisGet key] ++ r.2)
    | none => (none, ls, [Cmd.localGet key, Cmd.redisGet key])

/-- `cache.go` lines 110-123, `Del` / `DelFromInMemoryCache` /
`DelFromRedis`: unconditional deletion from both tiers. -/
def Del (ls : LocalState) (key : String) : LocalState × List Cmd :=
  (ls.delEntry key, [Cmd.localDel key, Cmd.redisDel key])

/-- `cache.go` lines 196-198, `Close`: releases only the local tier. -/
def Close : List Cmd := [Cmd.localClose]

/-- `cache.go` lines 126-141, `DelMultipleKeysFromRedis`: empty input
returns nil immediately with no remote call; otherwise one pipelined
batch of `Del` commands is executed, surfacing the `Exec` error. -/
def DelMultipleKeysFromRedis (rs : RedisState) (keys : List String) :
    Except String Unit × List Cmd :=
  if keys = [] then (Except.ok (), [])
  else
    match rs.pipeResp keys with
    | some e => (Except.error e, [Cmd.redisPipelineDel keys])
    | none => (Except.ok (), [Cmd.redisPipelineDel keys])

/-- The scan loop of `cache.go` lines 148-165: starting from cursor 0,
repeatedly issue `Scan(cursor, pattern, 100)`; on error return it; else
accumulate the page's keys, continue with the returned cursor, and stop
when that cursor is 0.  `i` is the index of the next scan call (feeding
the oracle), `fuel` bounds the number of iterations we unfold (the Go
loop is unbounded); `none` means the fuel ran out before the store
reported completion. -/
def scanLoop (oracle : Nat → ScanResp) (pat : String) :
    Nat → Nat → Nat → List String →
    Option (Except String (List String)) × List Cmd
  | 0, _, _, _ => (none, [])
  | Nat.succ fuel, i, cursor, acc =>
    match oracle i with
    | ScanResp.fail e =>
      (some (Except.error e), [Cmd.redisScan cursor pat 100])
    | ScanResp.ok keys next =>
      if next = 0 then
        (some (Except.ok (acc ++ keys)), [Cmd.redisScan cursor pat 100])
      else
        let r := scanLoop oracle pat fuel (i + 1) next (acc ++ keys)
        (r.1, Cmd.redisScan cursor pat 100 :: r.2)

/-- `cache.go` lines 144-184, `DeleteKeysByPatternFromRedis`: enumerate
all matching keys via the scan loop; on enumeration error return it
(nothing deleted); if no keys were found return nil without issuing any
delete; otherwise delete all accumulated keys in one pipelined batch and
surface the `Exec` error. -/
def DeleteKeysByPatternFromRedis (rs : RedisState) (pat : String)
    (fuel : Nat) : Option (Except String Unit) × List Cmd :=
  match scanLoop rs.scanResp pat fuel 0 0 [] with
  | (none, tr) => (none, tr)
  | (some (Except.error e), tr) => (some (Except.error e), tr)
  | (some (Except.ok keys), tr) =>
    if keys = [] then (some (Except.ok ()), tr)
    else
      match rs.pipeResp keys with
      | some e => (some (Except.error e), tr ++ [Cmd.redisPipelineDel keys])
      | none => (some (Except.ok ()), tr ++ [Cmd.redisPipelineDel keys])

/-- The coordinator's public operations, for statements quantifying over
every operation. -/
inductive Op where
  | opSet (key : String) (value : List Nat)
  | opSetWithTTL (key : String) (value : List Nat) (ttl : Int)
  | opGet (key : String)
  | opDel (key : String)
  | opDelMultiple (keys : List String)
  | opDelByPattern (pat : String) (fuel : Nat)
  | opClose

/-- Run one coordinator operation; result is the new local state and the
command trace the operation issued. -/
def runOp (hc : HybridCache) (rs : RedisState) (ls : LocalState) :
    Op → LocalState × List Cmd
  | Op.opSet k v => Set hc ls k v
  | Op.opSetWithTTL k v t => SetWithTTL hc ls k v t
  | Op.opGet k => (Get hc ls rs k).2
  | Op.opDel k => Del ls k
  | Op.opDelMultiple ks => (ls, (DelMultipleKeysFromRedis rs ks).2)
  | Op.opDelByPattern pat fuel =>
      (ls, (DeleteKeysByPatternFromRedis rs pat fuel).2)
  | Op.opClose => (ls, Close)

/-- `Completes oracle i ps` says: starting with the `i`-th scan call,
the store answers with exactly the pages `ps` (each a pair of page keys
and next cursor), every page before the last carries a non-zero next
cursor, and the last page carries next cursor 0 (the completion
sentinel). -/
inductive Completes (oracle : Nat → ScanResp) : Nat →
    List (List String × Nat) → Prop
  | last (i : Nat) (keys : List String)
      (h : oracle i = ScanResp.ok keys 0) :
      Completes oracle i [(keys, 0)]
  | step (i : Nat) (keys : List String) (c : Nat)
      (ps : List (List String × Nat))
      (h : oracle i = ScanResp.ok keys c) (hc : c ≠ 0)
      (hrest : Completes oracle (i + 1) ps) :
      Completes oracle i ((keys, c) :: ps)

/-- `FailsAt oracle i ps e` says: starting with the `i`-th scan call,
the store answers the pages `ps` (all with non-zero next cursors) and
then fails with error `e`. -/
inductive FailsAt (oracle : Nat → ScanResp) : Nat →
    List (List String × Nat) → String → Prop
  | here (i : Nat) (e : String) (h : oracle i = ScanResp.fail e) :
      FailsAt oracle i [] e
  | step (i : Nat) (keys : List String) (c : Nat)
      (ps : List (List String × Nat)) (e : String)
      (h : oracle i = ScanResp.ok keys c) (hc : c ≠ 0)
      (hrest : FailsAt oracle (i + 1) ps e) :
      FailsAt oracle i ((keys, c) :: ps) e

/-- The scan commands a successful enumeration of the pages `ps` issues,
starting from `cursor`: one `Scan(cursor, pat, 100)` per page, each
subsequent call using the previous page's next cursor. -/
def scanCmds (pat : String) : Nat → List (List String × Nat) → List Cmd
  | _, [] => []
  | cursor, (_, c) :: ps => Cmd.redisScan cursor pat 100 :: scanCmds pat c ps

/-- The scan commands of an enumeration that fails after the pages `ps`:
as `scanCmds`, plus the final failing call. -/
def scanCmdsF (pat : String) : Nat → List (List String × Nat) → List Cmd
  | cursor, [] => [Cmd.redisScan cursor pat 100]
  | cursor, (_, c) :: ps =>
    Cmd.redisScan cursor pat 100 :: scanCmdsF pat c ps

-- Concrete collaborator states used by the witnesses.

/-- A remote tier holding [7, 8] at "k" and nothing else. -/
def rsFound : RedisState :=
  { getResp := fun key => if key = "k" then RedisGetResult.found [7, 8]
                          else RedisGetResult.nilErr
    scanResp := fun _ => ScanResp.ok [] 0
    pipeResp := fun _ => none }

/-- Concrete coordinator configuration used by witnesses. -/
def hc0 : HybridCache :=
  { Prefix := "app", ExpiresInMemory := 60, ExpiresRedis := 600 }

/-- Concrete scan oracle: page 0 holds ["a"], page 1 is empty but
carries a non-zero cursor (enumeration must continue), page 2 holds
["b"] and completes. -/
def rsScan3 : RedisState :=
  { getResp := fun _ => RedisGetResult.nilErr
    scanResp := fun i =>
      if i = 0 then ScanResp.ok ["a"] 5
      else if i = 1 then ScanResp.ok [] 7
      else if i = 2 then ScanResp.ok ["b"] 0
      else ScanResp.fail "oracle exhausted"
    pipeResp := fun _ => none }

/-- Concrete scan oracle: one successful page with keys, then a failing
page. -/
def rsScanFail : RedisState :=
  { getResp := fun _ => RedisGetResult.nilErr
    scanResp := fun i =>
      if i = 0 then ScanResp.ok ["a", "b"] 9
      else ScanResp.fail "connection reset"
    pipeResp := fun _ => none }

/-- A remote store whose get command fails on every key. -/
def rsFail : RedisState :=
  { getResp := fun _ => RedisGetResult.failure "connection refused"
    scanResp := fun _ => ScanResp.ok [] 0
    pipeResp := fun _ => none }

/-- A remote store on which every key is simply absent (redis.Nil). -/
def rsNil : RedisState :=
  { getResp := fun _ => RedisGetResult.nilErr
    scanResp := fun _ => ScanResp.ok [] 0
    pipeResp := fun _ => none }

/-!
Key derivation (`cache.go` lines 186-193, `GetCacheKey`).  The Go code
uses the standard-library `crypto/sha256` and `encoding/hex`; these are
embedded below as executable Lean functions: SHA-256 exactly per FIPS
180-4 over byte lists (32-bit words as `Nat` reduced mod `2 ^ 32`), and
lowercase hexadecimal encoding as `encoding/hex` produces.  The
embedding is validated against the standard SHA-256 test vectors.
-/

/-- Right rotation of a 32-bit word (argument already < 2 ^ 32). -/
def rotr32 (n x : Nat) : Nat :=
  (x >>> n) ||| ((x <<< (32 - n)) % 2 ^ 32)

/-- The 64 SHA-256 round constants (FIPS 180-4 §4.2.2), written in
decimal. -/
def sha256K : List Nat :=
  [1116352408, 1899447441, 3049323471, 3921009573,
   961987163, 1508970993, 2453635748, 2870763221,
   3624381080, 310598401, 607225278, 1426881987,
   1925078388, 2162078206, 2614888103, 3248222580,
   3835390401, 4022224774, 264347078, 604807628,
   770255983, 1249150122, 1555081692, 1996064986,
   2554220882, 2821834349, 2952996808, 3210313671,
   3336571891, 3584528711, 113926993, 338241895,
   666307205, 773529912, 1294757372, 1396182291,
   1695183700, 1986661051, 2177026350, 2456956037,
   2730485921, 2820302411, 3259730800, 3345764771,
   3516065817, 3600352804, 4094571909, 275423344,
   430227734, 506948616, 659060556, 883997877,
   958139571, 1322822218, 1537002063, 1747873779,
   1955562222, 2024104815, 2227730452, 2361852424,
   2428436474, 2756734187, 3204031479, 3329325298]

/-- 8-byte big-endian encoding of the message bit length. -/
def be64 (n : Nat) : List Nat :=
  [n / 2 ^ 56 % 256, n / 2 ^ 48 % 256, n / 2 ^ 40 % 256,
   n / 2 ^ 32 % 256, n / 2 ^ 24 % 256, n / 2 ^ 16 % 256,
   n / 2 ^ 8 % 256, n % 256]

/-- SHA-256 message padding: append 0x80, zero bytes up to 56 mod 64,
then the bit length big-endian. -/
def sha256pad (msg : List Nat) : List Nat :=
  let L := msg.length
  msg ++ [0x80] ++ List.replicate ((120 - (L + 1) % 64) % 64) 0
      ++ be64 (L * 8)

/-- Split a byte list into 64-byte blocks (structural recursion on a
fuel bounded by the list length, so that the kernel can evaluate it). -/
def chunks64Aux : Nat → List Nat → List (List Nat)
  | 0, _ => []
  | Nat.succ fuel, l =>
    if l = [] then [] else l.take 64 :: chunks64Aux fuel (l.drop 64)

/-- Split a byte list into 64-byte blocks. -/
def chunks64 (l : List Nat) : List (List Nat) :=
  chunks64Aux l.length l

/-- Big-endian 32-bit words of a block of bytes. -/
def words32 : List Nat → List Nat
  | b0 :: b1 :: b2 :: b3 :: rest =>
    (b0 * 2 ^ 24 + b1 * 2 ^ 16 + b2 * 2 ^ 8 + b3) :: words32 rest
  | _ => []

/-- One message-schedule extension step on the reversed word list
(most recent word first). -/
def schedStep (w : List Nat) : List Nat :=
  let w15 := w.getD 14 0
  let w2 := w.getD 1 0
  let w16 := w.getD 15 0
  let w7 := w.getD 6 0
  let s0 := rotr32 7 w15 ^^^ rotr32 18 w15 ^^^ (w15 >>> 3)
  let s1 := rotr32 17 w2 ^^^ rotr32 19 w2 ^^^ (w2 >>> 10)
  ((w16 + s0 + w7 + s1) % 2 ^ 32) :: w

/-- The SHA-256 working state: eight 32-bit words. -/
abbrev Hash8 :=
  Nat × Nat × Nat × Nat × Nat × Nat × Nat × Nat

/-- One SHA-256 compression round (FIPS 180-4 §6.2.2 step 3). -/
def sha256round (s : Hash8) (kw : Nat × Nat) : Hash8 :=
  let (a, b, c, d, e, f, g, h) := s
  let s1 := rotr32 6 e ^^^ rotr32 11 e ^^^ rotr32 25 e
  let ch := (e &&& f) ^^^ ((e ^^^ (2 ^ 32 - 1)) &&& g)
  let temp1 := (h + s1 + ch + kw.1 + kw.2) % 2 ^ 32
  let s0 := rotr32 2 a ^^^ rotr32 13 a ^^^ rotr32 22 a
  let maj := (a &&& b) ^^^ (a &&& c) ^^^ (b &&& c)
  let temp2 := (s0 + maj) % 2 ^ 32
  ((temp1 + temp2) % 2 ^ 32, a, b, c, (d + temp1) % 2 ^ 32, e, f, g)

/-- Compress one 64-byte block into the running hash state. -/
def compressBlock (st : Hash8) (block : List Nat) : Hash8 :=
  let w := (Nat.repeat schedStep 48 (words32 block).reverse).reverse
  let r := (sha256K.zip w).foldl sha256round st
  ((st.1 + r.1) % 2 ^ 32,
   (st.2.1 + r.2.1) % 2 ^ 32,
   (st.2.2.1 + r.2.2.1) % 2 ^ 32,
   (st.2.2.2.1 + r.2.2.2.1) % 2 ^ 32,
   (st.2.2.2.2.1 + r.2.2.2.2.1) % 2 ^ 32,
   (st.2.2.2.2.2.1 + r.2.2.2.2.2.1) % 2 ^ 32,
   (st.2.2.2.2.2.2.1 + r.2.2.2.2.2.2.1) % 2 ^ 32,
   (st.2.2.2.2.2.2.2 + r.2.2.2.2.2.2.2) % 2 ^ 32)

/-- The SHA-256 initial hash value (FIPS 180-4 §5.3.3), in decimal. -/
def sha256init : Hash8 :=
  (1779033703, 3144134277, 1013904242, 2773480762,
   1359893119, 2600822924, 528734635, 1541459225)

/-- 4-byte big-endian encoding of a 32-bit word. -/
def be32 (n : Nat) : List Nat :=
  [n / 2 ^ 24 % 256, n / 2 ^ 16 % 256, n / 2 ^ 8 % 256, n % 256]

/-- SHA-256 of a byte list: the 32-byte digest. -/
def sha256 (msg : List Nat) : List Nat :=
  let st := (chunks64 (sha256pad msg)).foldl compressBlock sha256init
  ([st.1, st.2.1, st.2.2.1, st.2.2.2.1, st.2.2.2.2.1, st.2.2.2.2.2.1,
    st.2.2.2.2.2.2.1, st.2.2.2.2.2.2.2].map be32).flatten

/-- One lowercase hexadecimal digit, as `encoding/hex` renders it. -/
def hexDigit (n : Nat) : Char :=
  if n < 10 then Char.ofNat (48 + n) else Char.ofNat (87 + n)

/-- Two lowercase hexadecimal digits of one byte. -/
def hexByte (b : Nat) : List Char :=
  [hexDigit (b / 16), hexDigit (b % 16)]

/-- The character list of the lowercase hexadecimal encoding. -/
def hexChars (bs : List Nat) : List Char :=
  (bs.map hexByte).flatten

/-- Lowercase hexadecimal encoding of a byte list, as Go's
`hex.EncodeToString`. -/
def hexEncode (bs : List Nat) : String :=
  ⟨hexChars bs⟩

/-- UTF-8 encoding of one character (what Go's `[]byte(data)` yields
per rune). -/
def charBytes (ch : Char) : List Nat :=
  let n := ch.toNat
  if n < 0x80 then [n]
  else if n < 0x800 then [0xc0 + n / 64, 0x80 + n % 64]
  else if n < 0x10000 then
    [0xe0 + n / 4096, 0x80 + n / 64 % 64, 0x80 + n % 64]
  else
    [0xf0 + n / 262144, 0x80 + n / 4096 % 64, 0x80 + n / 64 % 64,
     0x80 + n % 64]

/-- The bytes of a Go string: UTF-8, as `[]byte(data)`. -/
def utf8Bytes (s : String) : List Nat :=
  (s.data.map charBytes).flatten

/-- `cache.go` lines 187-193, `GetCacheKey`: SHA-256 the data's bytes,
hex-encode the digest, and format as `<prefix>:<hex>`. -/
def GetCacheKey (hc : HybridCache) (data : String) : String :=
  hc.Prefix ++ ":" ++ hexEncode (sha256 (utf8Bytes data))

/-- Is this character a lowercase hexadecimal digit? -/
def isHexLower (ch : Char) : Bool :=
  (48 ≤ ch.toNat && ch.toNat ≤ 57) || (97 ≤ ch.toNat && ch.toNat ≤ 102)

/-!
Theorems.
-/

-- Basic lemma about the local store model.

theorem getEntry_setEntry_self (ls : LocalState) (k : String)
    (v : List Nat) : (ls.setEntry k v).getEntry k = some v := by
  simp [LocalState.setEntry, LocalState.getEntry, List.find?]

/-- C1: For every key k and byte value v, `Set(k, v)` followed
immediately by `Get(k)` on the same coordinator returns `(v, true)` with
the value byte-for-byte unchanged (the local tier satisfies the read,
the value being exactly the list of bytes written). -/
theorem set_then_get (hc : HybridCache) (rs : RedisState)
    (ls : LocalState) (k : String) (v : List Nat) :
    (Get hc (Set hc ls k v).1 rs k).1 = some v := by
  have h : GetFromInMemoryCache (Set hc ls k v).1 k = some v := by
    simpa [Set, SetInMemoryCache, GetFromInMemoryCache] using
      getEntry_setEntry_self ls k v
  simp [Get, h]

/-- C2: `Get` consults the local tier first: on a local hit it returns
the local value without issuing any remote command; on a local miss with
a remote hit it returns the remote value and promotes it, so that a
subsequent direct local lookup also returns it. -/
theorem get_tiering (hc : HybridCache) (rs : RedisState)
    (ls : LocalState) (k : String) (v : List Nat) :
    (GetFromInMemoryCache ls k = some v →
      Get hc ls rs k = (some v, ls, [Cmd.localGet k]))
    ∧ (GetFromInMemoryCache ls k = none →
        rs.getResp k = RedisGetResult.found v →
        (Get hc ls rs k).1 = some v
        ∧ GetFromInMemoryCache (Get hc ls rs k).2.1 k = some v
        ∧ Cmd.redisGet k ∈ (Get hc ls rs k).2.2) := by
  constructor
  · intro h
    simp [Get, h]
  · intro hmiss hfound
    have hred : GetFromRedis rs k = some v := by
      simp [GetFromRedis, hfound]
    have hmiss' : ls.getEntry k = none := hmiss
    refine ⟨by simp [Get, hmiss, hred], ?_, by simp [Get, hmiss, hred]⟩
    simp only [Get, hmiss, hred, hmiss', SetInMemoryCache,
      GetFromInMemoryCache]
    exact getEntry_setEntry_self ls k v

theorem get_tiering_witness :
    (Get hc0 ⟨[]⟩ rsFound "k").1 = some [7, 8]
    ∧ GetFromInMemoryCache (Get hc0 ⟨[]⟩ rsFound "k").2.1 "k"
        = some [7, 8]
    ∧ Cmd.redisGet "k" ∈ (Get hc0 ⟨[]⟩ rsFound "k").2.2 :=
  (get_tiering hc0 rsFound ⟨[]⟩ "k" [7, 8]).2 rfl (by decide)

/-- C5: `SetWithTTL(key, value, t)` writes the local tier with the
coordinator's local default TTL `ExpiresInMemory` (and cost 1), not with
`t`; the explicit TTL `t` goes only to the remote write.  `Set` uses the
local default locally and the remote default `ExpiresRedis` remotely. -/
theorem ttl_per_tier (hc : HybridCache) (ls : LocalState) (k : String)
    (v : List Nat) (t : Int) :
    (SetWithTTL hc ls k v t).2
      = [Cmd.localSet k v 1 hc.ExpiresInMemory, Cmd.localWait,
         Cmd.redisSet k v t]
    ∧ (Set hc ls k v).2
      = [Cmd.localSet k v 1 hc.ExpiresInMemory, Cmd.localWait,
         Cmd.redisSet k v hc.ExpiresRedis] := by
  constructor <;> rfl

/-- C9: `DelMultipleKeysFromRedis` on the empty key list returns no
error and issues no remote command at all. -/
theorem delMultiple_empty_noop (rs : RedisState) :
    DelMultipleKeysFromRedis rs [] = (Except.ok (), []) := by
  simp [DelMultipleKeysFromRedis]

-- Scan enumeration lemmas.

theorem scanCmds_only_scans (pat : String) (cursor : Nat)
    (ps : List (List String × Nat)) :
    ∀ c ∈ scanCmds pat cursor ps, ∃ cur, c = Cmd.redisScan cur pat 100 := by
  induction ps generalizing cursor with
  | nil => intro c hc; simp [scanCmds] at hc
  | cons p ps ih =>
    intro c hc
    simp only [scanCmds, List.mem_cons] at hc
    rcases hc with h | h
    · exact ⟨cursor, h⟩
    · exact ih p.2 c h

theorem scanCmdsF_only_scans (pat : String) (cursor : Nat)
    (ps : List (List String × Nat)) :
    ∀ c ∈ scanCmdsF pat cursor ps, ∃ cur, c = Cmd.redisScan cur pat 100 := by
  induction ps generalizing cursor with
  | nil => intro c hc; simp [scanCmdsF] at hc; exact ⟨cursor, hc⟩
  | cons p ps ih =>
    intro c hc
    simp only [scanCmdsF, List.mem_cons] at hc
    rcases hc with h | h
    · exact ⟨cursor, h⟩
    · exact ih p.2 c h

theorem scanLoop_completes (oracle : Nat → ScanResp) (pat : String)
    (ps : List (List String × Nat)) (i : Nat)
    (h : Completes oracle i ps) :
    ∀ fuel cursor acc, ps.length ≤ fuel →
      scanLoop oracle pat fuel i cursor acc
        = (some (Except.ok (acc ++ (ps.map Prod.fst).flatten)),
           scanCmds pat cursor ps) := by
  induction h with
  | last i keys hor =>
    intro fuel cursor acc hf
    match fuel, hf with
    | Nat.succ fuel, _ =>
      simp [scanLoop, hor, scanCmds]
  | step i keys c ps hor hc hrest ih =>
    intro fuel cursor acc hf
    match fuel, hf with
    | Nat.succ fuel, hf =>
      have hf' : ps.length ≤ fuel := Nat.le_of_succ_le_succ (by
        simpa using hf)
      simp [scanLoop, hor, hc, scanCmds, ih fuel c (acc ++ keys) hf']

theorem scanLoop_fails (oracle : Nat → ScanResp) (pat : String)
    (ps : List (List String × Nat)) (e : String) (i : Nat)
    (h : FailsAt oracle i ps e) :
    ∀ fuel cursor acc, ps.length < fuel →
      scanLoop oracle pat fuel i cursor acc
        = (some (Except.error e), scanCmdsF pat cursor ps) := by
  induction h with
  | here i e hor =>
    intro fuel cursor acc hf
    match fuel, hf with
    | Nat.succ fuel, _ =>
      simp [scanLoop, hor, scanCmdsF]
  | step i keys c ps e hor hc hrest ih =>
    intro fuel cursor acc hf
    match fuel, hf with
    | Nat.succ fuel, hf =>
      have hf' : ps.length < fuel := Nat.lt_of_succ_lt_succ (by
        simpa using hf)
      simp [scanLoop, hor, hc, scanCmdsF, ih fuel c (acc ++ keys) hf']

/-- C3: when the store's scan responses complete (last next-cursor 0,
a non-zero cursor on every earlier page, empty pages allowed anywhere),
`DeleteKeysByPatternFromRedis` issues exactly one scan per page — page
size 100, starting from cursor 0, each later call at the previous page's
cursor, and nothing but scan commands during enumeration — accumulates
all pages' keys, and then: if no keys were found it returns success
having issued no delete command at all; otherwise it issues exactly one
pipelined batch delete of all accumulated keys after the last scan. -/
theorem deleteByPattern_enumeration (rs : RedisState) (pat : String)
    (ps : List (List String × Nat)) (fuel : Nat)
    (h : Completes rs.scanResp 0 ps) (hf : ps.length ≤ fuel) :
    ((ps.map Prod.fst).flatten = [] →
      DeleteKeysByPatternFromRedis rs pat fuel
        = (some (Except.ok ()), scanCmds pat 0 ps))
    ∧ ((ps.map Prod.fst).flatten ≠ [] →
      (DeleteKeysByPatternFromRedis rs pat fuel).2
        = scanCmds pat 0 ps
            ++ [Cmd.redisPipelineDel ((ps.map Prod.fst).flatten)])
    ∧ (∀ c ∈ scanCmds pat 0 ps, ∃ cur, c = Cmd.redisScan cur pat 100) := by
  have hloop := scanLoop_completes rs.scanResp pat ps 0 h fuel 0 [] hf
  refine ⟨?_, ?_, scanCmds_only_scans pat 0 ps⟩
  · intro hemp
    simp [DeleteKeysByPatternFromRedis, hloop, hemp]
  · intro hne
    simp only [DeleteKeysByPatternFromRedis, hloop, List.nil_append]
    simp only [if_neg hne]
    cases rs.pipeResp ((ps.map Prod.fst).flatten) <;> simp

theorem deleteByPattern_enumeration_witness :
    (DeleteKeysByPatternFromRedis rsScan3 "p*" 3).2
      = scanCmds "p*" 0 [(["a"], 5), ([], 7), (["b"], 0)]
          ++ [Cmd.redisPipelineDel ["a", "b"]] := by
  have h := deleteByPattern_enumeration rsScan3 "p*"
    [(["a"], 5), ([], 7), (["b"], 0)] 3
    (Completes.step 0 ["a"] 5 _ rfl (by decide)
      (Completes.step 1 [] 7 _ rfl (by decide)
        (Completes.last 2 ["b"] rfl)))
    (by decide)
  simpa using h.2.1 (by decide)

/-- C4: if a scan page fails during `DeleteKeysByPatternFromRedis`'s
enumeration, the operation returns that error at once, and the trace up
to that point consists of scan commands only — in particular no delete
command (neither a pipelined batch nor a single delete) has been issued,
so the keys matched on earlier pages are untouched. -/
theorem deleteByPattern_scan_error (rs : RedisState) (pat : String)
    (ps : List (List String × Nat)) (e : String) (fuel : Nat)
    (h : FailsAt rs.scanResp 0 ps e) (hf : ps.length < fuel) :
    DeleteKeysByPatternFromRedis rs pat fuel
      = (some (Except.error e), scanCmdsF pat 0 ps)
    ∧ (∀ c ∈ scanCmdsF pat 0 ps, ∃ cur, c = Cmd.redisScan cur pat 100) := by
  have hloop := scanLoop_fails rs.scanResp pat ps e 0 h fuel 0 [] hf
  exact ⟨by simp [DeleteKeysByPatternFromRedis, hloop],
    scanCmdsF_only_scans pat 0 ps⟩

theorem deleteByPattern_scan_error_witness :
    DeleteKeysByPatternFromRedis rsScanFail "p*" 2
      = (some (Except.error "connection reset"),
         scanCmdsF "p*" 0 [(["a", "b"], 9)]) :=
  (deleteByPattern_scan_error rsScanFail "p*" [(["a", "b"], 9)]
    "connection reset" 2
    (FailsAt.step 0 ["a", "b"] 9 _ _ rfl (by decide)
      (FailsAt.here 1 "connection reset" rfl))
    (by decide)).1

-- C7: error handling of `GetFromRedis`.

/-- C7 counterexample: on a store whose get command fails,
`GetFromRedis` returns exactly the same result `(nil, false)` as on a
store where the key is merely absent — the failure is NOT surfaced as an
error distinct from absence (the function's return type has no error
channel at all). -/
theorem getFromRedis_failure_indistinguishable :
    GetFromRedis rsFail "k" = GetFromRedis rsNil "k"
    ∧ GetFromRedis rsFail "k" = none := by
  constructor <;> rfl

/-- C7 amended: when the remote get command fails, `GetFromRedis`
swallows the error and reports absence `(nil, false)`, identically to a
not-found result. -/
theorem getFromRedis_failure_as_miss (rs : RedisState) (k e : String)
    (h : rs.getResp k = RedisGetResult.failure e) :
    GetFromRedis rs k = none := by
  simp [GetFromRedis, h]

theorem getFromRedis_failure_as_miss_witness :
    GetFromRedis rsFail "k" = none :=
  getFromRedis_failure_as_miss rsFail "k" "connection refused" rfl

-- Trace shape lemmas used by the cross-operation invariants.

theorem scanLoop_trace_only_scans (oracle : Nat → ScanResp)
    (pat : String) :
    ∀ fuel i cursor acc,
      ∀ c ∈ (scanLoop oracle pat fuel i cursor acc).2,
        ∃ cur, c = Cmd.redisScan cur pat 100 := by
  intro fuel
  induction fuel with
  | zero => intro i cursor acc c hc; simp [scanLoop] at hc
  | succ fuel ih =>
    intro i cursor acc c hc
    simp only [scanLoop] at hc
    rcases hor : oracle i with ⟨keys, next⟩ | e
    · rw [hor] at hc
      by_cases hnext : next = 0
      · subst hnext
        simp at hc
        exact ⟨cursor, hc⟩
      · simp only [if_neg hnext, List.mem_cons] at hc
        rcases hc with h | h
        · exact ⟨cursor, h⟩
        · exact ih (i + 1) next (acc ++ keys) c h
    · rw [hor] at hc
      simp at hc
      exact ⟨cursor, hc⟩

theorem deleteByPattern_no_localSet (rs : RedisState) (pat : String)
    (fuel : Nat) (k : String) (v : List Nat) (c : Nat) (t : Int) :
    Cmd.localSet k v c t ∉ (DeleteKeysByPatternFromRedis rs pat fuel).2 := by
  intro hmem
  have honly := scanLoop_trace_only_scans rs.scanResp pat fuel 0 0 []
  rcases hsl : scanLoop rs.scanResp pat fuel 0 0 [] with ⟨res, tr⟩
  rw [hsl] at honly
  have htr : ∀ x ∈ tr, ∃ cur, x = Cmd.redisScan cur pat 100 := honly
  rcases res with _ | res
  · simp only [DeleteKeysByPatternFromRedis, hsl] at hmem
    rcases htr _ hmem with ⟨cur, h⟩
    exact Cmd.noConfusion h
  · rcases res with e | keys
    · simp only [DeleteKeysByPatternFromRedis, hsl] at hmem
      rcases htr _ hmem with ⟨cur, h⟩
      exact Cmd.noConfusion h
    · simp only [DeleteKeysByPatternFromRedis, hsl] at hmem
      by_cases hk : keys = []
      · rw [if_pos hk] at hmem
        rcases htr _ hmem with ⟨cur, h⟩
        exact Cmd.noConfusion h
      · rw [if_neg hk] at hmem
        have hmem' : Cmd.localSet k v c t
            ∈ tr ++ [Cmd.redisPipelineDel keys] := by
          rcases hp : rs.pipeResp keys with _ | e <;> rw [hp] at hmem <;>
            simpa using hmem
        rcases List.mem_append.mp hmem' with h | h
        · rcases htr _ h with ⟨cur, h'⟩
          exact Cmd.noConfusion h'
        · simp at h

theorem delMultiple_no_localSet (rs : RedisState) (keys : List String)
    (k : String) (v : List Nat) (c : Nat) (t : Int) :
    Cmd.localSet k v c t ∉ (DelMultipleKeysFromRedis rs keys).2 := by
  intro hmem
  simp only [DelMultipleKeysFromRedis] at hmem
  by_cases hk : keys = []
  · rw [if_pos hk] at hmem; simp at hmem
  · rw [if_neg hk] at hmem
    rcases hp : rs.pipeResp keys with _ | e <;> rw [hp] at hmem <;>
      simp at hmem

/-- Every local-tier write any coordinator operation issues has cost
exactly 1 and the local default TTL, and is either paired with a remote
write of the same key and value within the same operation, or is the
promotion of the value that the remote get of the same operation just
returned. -/
theorem localSet_mem_runOp (hc : HybridCache) (rs : RedisState)
    (ls : LocalState) (op : Op) (k : String) (v : List Nat) (c : Nat)
    (t : Int)
    (hmem : Cmd.localSet k v c t ∈ (runOp hc rs ls op).2) :
    c = 1 ∧ t = hc.ExpiresInMemory
    ∧ ((∃ t2, Cmd.redisSet k v t2 ∈ (runOp hc rs ls op).2)
       ∨ (Cmd.redisGet k ∈ (runOp hc rs ls op).2
          ∧ rs.getResp k = RedisGetResult.found v)) := by
  cases op with
  | opSet k0 v0 =>
    simp only [runOp, Set, SetInMemoryCache, SetInRedis] at hmem ⊢
    simp at hmem
    obtain ⟨hk, hv, hcost, ht⟩ := hmem
    subst hk; subst hv
    exact ⟨hcost, ht, Or.inl ⟨hc.ExpiresRedis, by simp⟩⟩
  | opSetWithTTL k0 v0 t0 =>
    simp only [runOp, SetWithTTL, SetInMemoryCache, SetInRedis] at hmem ⊢
    simp at hmem
    obtain ⟨hk, hv, hcost, ht⟩ := hmem
    subst hk; subst hv
    exact ⟨hcost, ht, Or.inl ⟨t0, by simp⟩⟩
  | opGet k0 =>
    simp only [runOp] at hmem ⊢
    rcases hl : GetFromInMemoryCache ls k0 with _ | w
    · rcases hr : rs.getResp k0 with w | _ | e
      · have hred : GetFromRedis rs k0 = some w := by
          simp [GetFromRedis, hr]
        simp only [Get, hl, hred, SetInMemoryCache] at hmem ⊢
        simp at hmem
        obtain ⟨hk, hv, hcost, ht⟩ := hmem
        subst hk; subst hv
        exact ⟨hcost, ht, Or.inr ⟨by simp, hr⟩⟩
      · have hred : GetFromRedis rs k0 = none := by
          simp [GetFromRedis, hr]
        simp [Get, hl, hred] at hmem
      · have hred : GetFromRedis rs k0 = none := by
          simp [GetFromRedis, hr]
        simp [Get, hl, hred] at hmem
    · simp [Get, hl] at hmem
  | opDel k0 =>
    simp [runOp, Del] at hmem
  | opDelMultiple ks =>
    exact absurd hmem (delMultiple_no_localSet rs ks k v c t)
  | opDelByPattern pat fuel =>
    exact absurd hmem (deleteByPattern_no_localSet rs pat fuel k v c t)
  | opClose =>
    simp [runOp, Close] at hmem

/-- C8: across every coordinator operation, the coordinator never
performs a local-tier-only write: each local-tier write it issues is
part of an operation that also writes the same key and value to the
remote tier, or is the promotion of a value just read from the remote
tier by that same operation. -/
theorem no_local_only_write (hc : HybridCache) (rs : RedisState)
    (ls : LocalState) (op : Op) (k : String) (v : List Nat) (c : Nat)
    (t : Int)
    (hmem : Cmd.localSet k v c t ∈ (runOp hc rs ls op).2) :
    (∃ t2, Cmd.redisSet k v t2 ∈ (runOp hc rs ls op).2)
    ∨ (Cmd.redisGet k ∈ (runOp hc rs ls op).2
       ∧ rs.getResp k = RedisGetResult.found v) :=
  (localSet_mem_runOp hc rs ls op k v c t hmem).2.2

theorem no_local_only_write_witness :
    (∃ t2, Cmd.redisSet "k" [7] t2
        ∈ (runOp hc0 rsNil ⟨[]⟩ (Op.opSet "k" [7])).2)
    ∨ (Cmd.redisGet "k" ∈ (runOp hc0 rsNil ⟨[]⟩ (Op.opSet "k" [7])).2
       ∧ rsNil.getResp "k" = RedisGetResult.found [7]) :=
  no_local_only_write hc0 rsNil ⟨[]⟩ (Op.opSet "k" [7]) "k" [7] 1
    hc0.ExpiresInMemory (by simp [runOp, Set, SetInMemoryCache, SetInRedis])

/-- C10: every local-tier write any coordinator operation issues —
from `Set`, `SetWithTTL` or `Get`'s promotion — carries cost exactly 1,
whatever the byte length of the value, so the local tier's cost budget
bounds the number of entries rather than their total size. -/
theorem local_write_cost_one (hc : HybridCache) (rs : RedisState)
    (ls : LocalState) (op : Op) (k : String) (v : List Nat) (c : Nat)
    (t : Int)
    (hmem : Cmd.localSet k v c t ∈ (runOp hc rs ls op).2) :
    c = 1 :=
  (localSet_mem_runOp hc rs ls op k v c t hmem).1

theorem local_write_cost_one_witness : (1 : Nat) = 1 :=
  local_write_cost_one hc0 rsNil ⟨[]⟩
    (Op.opSetWithTTL "k" [1, 2, 3, 4, 5] 7) "k" [1, 2, 3, 4, 5] 1
    hc0.ExpiresInMemory
    (by simp [runOp, SetWithTTL, SetInMemoryCache, SetInRedis])

-- Validation of the SHA-256 embedding against FIPS 180-4 test vectors.

theorem sha256_vector_empty :
    hexEncode (sha256 []) =
      "e3b0c44298fc1c149afbf4c8996fb92427ae41e4649b934ca495991b7852b855" := by
  decide

theorem sha256_vector_abc :
    hexEncode (sha256 (utf8Bytes "abc")) =
      "ba7816bf8f01cfea414140de5dae2223b00361a396177a9cb410ff61f20015ad" := by
  decide

theorem getCacheKey_vector_some_data :
    GetCacheKey hc0 "some data" =
      "app:1307990e6ba5ca145eb35e99182a9bec46531bc54ddf656a602c780fa0240dee" := by
  decide

theorem getCacheKey_distinct_inputs :
    GetCacheKey hc0 "some data" ≠ GetCacheKey hc0 "other data" := by
  decide

-- Structural facts feeding the C6 theorem.

theorem be32_bytes_lt (w : Nat) : ∀ b ∈ be32 w, b < 256 := by
  intro b hb
  simp [be32] at hb
  rcases hb with h | h | h | h <;> omega

theorem sha256_bytes_lt (msg : List Nat) : ∀ b ∈ sha256 msg, b < 256 := by
  intro b hb
  simp only [sha256, List.mem_flatten, List.mem_map] at hb
  obtain ⟨l, ⟨w, _, hw⟩, hbl⟩ := hb
  exact be32_bytes_lt w b (hw ▸ hbl)

theorem hexDigit_lower : ∀ n < 16, isHexLower (hexDigit n) = true := by
  decide

theorem hexChars_lower (bs : List Nat) (hbs : ∀ b ∈ bs, b < 256) :
    ∀ ch ∈ hexChars bs, isHexLower ch = true := by
  intro ch hch
  simp only [hexChars, List.mem_flatten, List.mem_map] at hch
  obtain ⟨l, ⟨b, hb, hl⟩, hchl⟩ := hch
  have hb' := hbs b hb
  rw [← hl] at hchl
  simp [hexByte] at hchl
  rcases hchl with h | h <;> subst h <;> apply hexDigit_lower <;> omega

/-- C6: `GetCacheKey(data)` returns exactly
`Prefix ++ ":" ++` the lowercase hexadecimal encoding of the SHA-256
digest of `data`'s bytes; the hexadecimal part is 64 characters, all of
them lowercase hex digits; and the function is pure, so equal inputs
give the identical string. -/
theorem getCacheKey_shape (hc : HybridCache) (data : String) :
    GetCacheKey hc data
      = hc.Prefix ++ ":" ++ hexEncode (sha256 (utf8Bytes data))
    ∧ GetCacheKey hc data = GetCacheKey hc data
    ∧ (hexEncode (sha256 (utf8Bytes data))).length = 64
    ∧ (hexEncode (sha256 (utf8Bytes data))).data.all isHexLower = true := by
  refine ⟨rfl, rfl, rfl, ?_⟩
  rw [List.all_eq_true]
  intro ch hch
  exact hexChars_lower (sha256 (utf8Bytes data))
    (sha256_bytes_lt (utf8Bytes data)) ch hch

end Cache
